import Mathlib

/-!
Verification of the entwine point-cloud indexer core against its
natural-language specification.  The definitions below are a shallow
embedding of the C++ sources under src/: byte buffers become `List Nat`,
machine integers become `Nat`/`Int` with explicit wrapping where overflow
matters, fallible code returns `Except String`, and the global chunk
counter becomes explicit state threaded through an event trace.

Definitions come first, theorems afterwards.
-/

namespace Entwine

/-- Chunk type discriminator, from format-types: Contiguous = 0, Sparse = 1,
Invalid = 255 (spec section 4.6). -/
inductive ChunkType where
  | Contiguous
  | Sparse
  | Invalid
deriving DecidableEq, Repr

/-- Byte value of a chunk type, as written into the tail. -/
def chunkTypeByte : ChunkType → Nat
  | ChunkType.Contiguous => 0
  | ChunkType.Sparse => 1
  | ChunkType.Invalid => 255

/-- Recognized tail fields (format-types.hpp): numPoints and chunkType. -/
inductive TailField where
  | numPoints
  | chunkType
deriving DecidableEq, Repr

/-- Little-endian encoding of an unsigned 64-bit value into 8 bytes. -/
def le64 (n : Nat) : List Nat :=
  (List.range 8).map (fun i => n / 256 ^ i % 256)

/-- Modelled from the spec: the Packer of format-packing.hpp (not under
src/) encodes each tail field with a fixed binary encoding — numPoints as a
little-endian unsigned 64-bit value, chunkType as a single byte. -/
def tailFieldBytes (numPoints : Nat) (ct : ChunkType) : TailField → List Nat
  | TailField.numPoints => le64 numPoints
  | TailField.chunkType => [chunkTypeByte ct]

/-- Modelled from the spec: Packer::buildTail appends the recognized tail
fields in the configured tailFields order (spec sections 4.6 and 6). -/
def buildTail (fields : List TailField) (numPoints : Nat) (ct : ChunkType) :
    List Nat :=
  fields.foldl (fun acc f => acc ++ tailFieldBytes numPoints ct f) []

/-- The Format attributes relevant to packing (format.hpp): the schema is
represented by its point size in bytes, plus the compress flag and the
configured tail fields. -/
structure Format where
  pointSize : Nat
  compress : Bool
  tailFields : List TailField
deriving DecidableEq, Repr

/-- Format::Format (format.cpp lines 44-88): after translating the tail
field names, throw if some tail field occurs more than once, then throw if
compression is requested while numPoints is absent from the tail fields;
otherwise the Format is constructed. -/
def mkFormat (pointSize : Nat) (compress : Bool) (tailFields : List TailField) :
    Except String Format :=
  if tailFields.any (fun f => 1 < tailFields.count f) then
    Except.error "Identical tail fields detected"
  else if compress && tailFields.count TailField.numPoints == 0 then
    Except.error "Cannot specify compression without numPoints"
  else
    Except.ok ⟨pointSize, compress, tailFields⟩

/-- Format::pack, uncompressed branch (format.cpp lines 175-183): the
payload buffer accumulates each record's pointSize bytes in stack order. -/
def packPayloadRaw (records : List (List Nat)) : List Nat :=
  records.foldl (fun acc r => acc ++ r) []

/-- Format::pack restricted to the compression-disabled branch: payload is
the raw accumulation of the records followed by the built tail, with
numPoints taken as the stack size (format.cpp lines 104-191). -/
def Format.packUncompressed (fmt : Format) (records : List (List Nat))
    (ct : ChunkType) : List Nat :=
  packPayloadRaw records ++ buildTail fmt.tailFields records.length ct

/-- A 3D point with exact rational coordinates, standing in for the
double-precision Point of the source. -/
structure Pt3 where
  x : ℚ
  y : ℚ
  z : ℚ
deriving DecidableEq, Repr

/-- Delta: integer-quantization parameters, a scale and an offset per axis
(spec section 3). -/
structure Delta where
  scale : Pt3
  offset : Pt3
deriving DecidableEq, Repr

/-- Semantics of std::llround: round to nearest, halfway cases away from
zero. -/
def llround (q : ℚ) : Int :=
  if 0 ≤ q then ⌊q + 1 / 2⌋ else ⌈q - 1 / 2⌉

/-- Two's-complement truncation of an integer into the signed 32-bit range,
as performed by the assignment of the llround result to the int32_t local
in format.cpp. -/
def wrap32 (i : Int) : Int :=
  (i + 2 ^ 31) % 2 ^ 32 - 2 ^ 31

/-- Quantization of one native coordinate: llround((native - offset) /
scale), as in format.cpp lines 154-167. -/
def quantize (scale offset v : ℚ) : Int :=
  llround ((v - offset) / scale)

/-- A point record as seen by the compress-with-delta branch: the three
native double coordinates (the record's first 24 bytes) plus the remaining
attribute bytes (pointSize - 24 of them). -/
structure DeltaRec where
  pt : Pt3
  attrs : List Nat
deriving DecidableEq, Repr

/-- One item pushed into the external compressor: either a signed 32-bit
coordinate or a run of raw bytes. -/
inductive PushItem where
  | coordI (i : Int)
  | rawB (bytes : List Nat)
deriving DecidableEq, Repr

/-- Pushes that format.cpp lines 150-170 emit for one record: quantized X,
Y, Z (each truncated into int32_t) followed by the attribute bytes from
offset 24 onward, unchanged. -/
def pushRecord (d : Delta) (r : DeltaRec) : List PushItem :=
  [PushItem.coordI (wrap32 (quantize d.scale.x d.offset.x r.pt.x)),
   PushItem.coordI (wrap32 (quantize d.scale.y d.offset.y r.pt.y)),
   PushItem.coordI (wrap32 (quantize d.scale.z d.offset.z r.pt.z)),
   PushItem.rawB r.attrs]

/-- Format::pack, compression-enabled branch with a configured Delta
(format.cpp lines 112-173): the loop walks the data stack and accumulates
pushes into the compressor; the compressor itself is an external
collaborator, so its input stream is what is modelled. -/
def packDeltaStream (d : Delta) (records : List DeltaRec) : List PushItem :=
  records.foldl (fun acc r => acc ++ pushRecord d r) []

/-- Per-record pushes as the specification words them: the three
coordinates converted to round((native - offset) / scale) signed integers,
then the remaining attribute bytes unchanged. -/
def specPushRecord (d : Delta) (r : DeltaRec) : List PushItem :=
  [PushItem.coordI (quantize d.scale.x d.offset.x r.pt.x),
   PushItem.coordI (quantize d.scale.y d.offset.y r.pt.y),
   PushItem.coordI (quantize d.scale.z d.offset.z r.pt.z),
   PushItem.rawB r.attrs]

/-- Range condition under which a record's three quantized coordinates all
fit in a signed 32-bit integer. -/
def recInRange (d : Delta) (r : DeltaRec) : Prop :=
  -(2 ^ 31) ≤ quantize d.scale.x d.offset.x r.pt.x ∧
    quantize d.scale.x d.offset.x r.pt.x < 2 ^ 31 ∧
  -(2 ^ 31) ≤ quantize d.scale.y d.offset.y r.pt.y ∧
    quantize d.scale.y d.offset.y r.pt.y < 2 ^ 31 ∧
  -(2 ^ 31) ≤ quantize d.scale.z d.offset.z r.pt.z ∧
    quantize d.scale.z d.offset.z r.pt.z < 2 ^ 31

instance (d : Delta) (r : DeltaRec) : Decidable (recInRange d r) := by
  unfold recInRange
  infer_instance

/-- ChunkInfo::calcLevelIndex: the first chunk id at a given depth; level 0
starts at id 0 and each level of a factor-ary tree starts at
previous * factor + 1, matching the climber id update id * factor + child
+ 1 (spec section 3). -/
def calcLevelIndex (factor : Nat) : Nat → Nat
  | 0 => 0
  | d + 1 => calcLevelIndex factor d * factor + 1

/-- ChunkInfo::calcDepth: the depth of an absolute chunk id, i.e. the d
with calcLevelIndex factor d ≤ id < calcLevelIndex factor (d + 1);
computed by stepping up to the parent id (id - 1) / factor. -/
def calcDepth (factor id : Nat) : Nat :=
  if h : id = 0 then 0
  else 1 + calcDepth factor ((id - 1) / factor)
termination_by id
decreasing_by
  have hle : (id - 1) / factor ≤ id - 1 := Nat.div_le_self _ _
  omega

/-- One celled record of a serialized base chunk blob: the stored 64-bit
tubeId, the decoded point, and the record's native bytes. -/
structure CelledRec (P : Type) where
  tube : Nat
  point : P
  bytes : List Nat
deriving DecidableEq, Repr

/-- Whether a celled record's stored tubeId agrees with the re-climbed
state: tubeId = climber.index() - baseId at the depth derived from
baseId + tubeId (chunk.cpp lines 515-521). -/
def recValid {P : Type} (climbIndex : P → Nat → Nat) (factor baseId : Nat)
    (r : CelledRec P) : Prop :=
  r.tube = climbIndex r.point (calcDepth factor (baseId + r.tube)) - baseId

instance {P : Type} (climbIndex : P → Nat → Nat) (factor baseId : Nat)
    (r : CelledRec P) : Decidable (recValid climbIndex factor baseId r) := by
  unfold recValid
  infer_instance

/-- BaseChunk load loop (chunk.cpp lines 505-529).  The Climber is not
under src/; modelled from the spec: magnifyTo followed by index() is a
pure function of the point and the target depth (spec section 4.3
determinism invariant), passed here as the climbIndex parameter.  Each
record's stored tubeId is checked against the re-climbed index; a mismatch
raises the fatal error, otherwise the record is inserted and the loop
continues.  The returned list is the sequence of inserted records. -/
def loadBase {P : Type} (climbIndex : P → Nat → Nat) (factor baseId : Nat) :
    List (CelledRec P) → Except String (List (CelledRec P))
  | [] => Except.ok []
  | r :: rest =>
      if r.tube =
          climbIndex r.point (calcDepth factor (baseId + r.tube)) - baseId
      then
        match loadBase climbIndex factor baseId rest with
        | Except.ok l => Except.ok (r :: l)
        | Except.error e => Except.error e
      else Except.error "Bad serialized base tube"

/-- The Structure parameters that drive the base merge (spec section 3):
the base depth band, the bump depth (0 when unset, as in the source where
bumpDepth is falsy when absent), and the cold-chunk cell count. -/
structure TreeStructure where
  baseDepthBegin : Nat
  baseDepthEnd : Nat
  bumpDepth : Nat
  basePointsPerChunk : Nat
deriving DecidableEq, Repr

/-- The merge-relevant projection of a ContiguousChunk: its starting id and
its maxPoints (cell capacity). -/
structure CChunk where
  id : Nat
  maxPoints : Nat
deriving DecidableEq, Repr

/-- Modelled from the spec: Chunk::endId (chunk.hpp is not under src/) is
the one-past-the-end id of the chunk's cell range, id + maxPoints, so that
a subset span [begin, end) yields endId = end (spec section 4.8). -/
def CChunk.endId (c : CChunk) : Nat :=
  c.id + c.maxPoints

/-- Bump handling inside BaseChunk::merge for one depth (chunk.cpp lines
664-703), applied after the incoming chunk has been appended: when the
structure has a bump depth, the depth is at or past it, and the
accumulated span back().endId() - front().id() equals basePointsPerChunk,
the code throws "Chunk bounds required - not implemented here"; the
promotion-and-save code after that throw is unreachable. -/
def mergeDepthBump (s : TreeStructure) (d : Nat) (write : List CChunk)
    (adding : CChunk) : Except String (List CChunk) :=
  if s.bumpDepth ≠ 0 ∧ s.bumpDepth ≤ d ∧
      CChunk.endId adding - (write.headD adding).id = s.basePointsPerChunk
  then Except.error "Chunk bounds required - not implemented here"
  else Except.ok (write ++ [adding])

/-- Adjacency test of BaseChunk::merge (chunk.cpp lines 653-660): the
check fires only when the write buffer is nonempty and its last chunk's
endId differs from the incoming chunk's id. -/
def adjViolated (write : List CChunk) (adding : CChunk) : Bool :=
  ((write.getLast?).map (fun last => CChunk.endId last != adding.id)).getD
    false

/-- BaseChunk::merge body for a single depth (chunk.cpp lines 650-703): if
the write buffer is nonempty, its last chunk's endId must equal the
incoming chunk's id, otherwise the fatal adjacency error; then the
incoming chunk is appended and the bump check runs. -/
def mergeDepth (s : TreeStructure) (d : Nat) (write : List CChunk)
    (adding : CChunk) : Except String (List CChunk) :=
  if adjViolated write adding then
    Except.error "Merges must be performed consecutively"
  else mergeDepthBump s d write adding

/-- Depth loop of BaseChunk::merge (chunk.cpp lines 648-704): depths run
from baseDepthBegin through the write vector; the first failing depth
aborts the merge.  Only the base band [baseDepthBegin, baseDepthEnd) is
modelled, since depths below baseDepthBegin are never touched by the loop.
The two lists always have equal length in the source (one entry per base
depth); a leftover suffix is passed through unchanged. -/
def mergeOneGo (s : TreeStructure) :
    Nat → List (List CChunk) → List CChunk →
      Except String (List (List CChunk))
  | _, [], _ => Except.ok []
  | _, w :: ws, [] => Except.ok (w :: ws)
  | d, w :: ws, a :: as =>
      match mergeDepth s d w a with
      | Except.error e => Except.error e
      | Except.ok w' =>
          match mergeOneGo s (d + 1) ws as with
          | Except.error e => Except.error e
          | Except.ok rest => Except.ok (w' :: rest)

/-- BaseChunk::merge of one incoming subset base into the current write
buffers. -/
def mergeOne (s : TreeStructure) (writes : List (List CChunk))
    (other : List CChunk) : Except String (List (List CChunk)) :=
  mergeOneGo s s.baseDepthBegin writes other

/-- Serial merge of a sequence of subset bases, as the merge kernel drives
BaseChunk::merge once per subset. -/
def mergeAll (s : TreeStructure) (writes : List (List CChunk)) :
    List (List CChunk) → Except String (List (List CChunk))
  | [] => Except.ok writes
  | o :: os =>
      match mergeOne s writes o with
      | Except.error e => Except.error e
      | Except.ok w' => mergeAll s w' os

/-- The end id of the last chunk of a write buffer, when it has one. -/
def lastEnd (w : List CChunk) : Option Nat :=
  (w.getLast?).map CChunk.endId

/-- Adjacency of one incoming chunk with the current write buffer: an
empty buffer accepts anything, otherwise the buffer's end id must equal
the incoming chunk's id. -/
def rowAdj (l : Option Nat) (a : CChunk) : Bool :=
  (l.map (fun e => e == a.id)).getD true

/-- Adjacency at every depth of one incoming subset base against the
current per-depth write buffers. -/
def rowsAdj (lasts : List (Option Nat)) (o : List CChunk) : Bool :=
  (lasts.zip o).all (fun p => rowAdj p.1 p.2)

/-- The claim's adjacency condition for a sequence of subsets: at each
depth, every subset's base chunk id continues exactly where the previous
write buffer (initially the current build's own chunks) ended. -/
def chainAdj : List (Option Nat) → List (List CChunk) → Bool
  | _, [] => true
  | lasts, o :: os =>
      rowsAdj lasts o &&
        chainAdj (o.map (fun a => some (CChunk.endId a))) os

/-- Live state of a cold chunk for the collect protocol: its tube storage
drained into cell records, and the packed payload m_data. -/
structure ChunkState where
  tubes : List (List Nat)
  mdata : Option (List Nat)
deriving DecidableEq, Repr

/-- Chunk::collect (chunk.cpp lines 76-90): asserts that m_data is empty
(modelled as a fatal error when the assertion is violated), drains every
cell into a pooled data stack leaving the tube storage empty, and packs
the stack into m_data.  The pack parameter stands for the metadata
format's pack applied to the drained records. -/
def chunkCollect (pack : List (List Nat) → ChunkType → List Nat)
    (ty : ChunkType) (c : ChunkState) : Except String ChunkState :=
  if c.mdata.isSome then Except.error "assertion failed: !m_data"
  else Except.ok ⟨[], some (pack c.tubes ty)⟩

/-- Events acting on the global chunk counter: construction of a cold
chunk, construction of the BaseChunk together with its member chunks
(members counts every Chunk object the base construction creates,
including the base itself), and one chunk destructor run. -/
inductive ChunkEvent where
  | mkCold
  | mkBase (members : Nat)
  | dtor
deriving DecidableEq, Repr

/-- Effect of one event on the global chunkCount (chunk.cpp): every Chunk
constructor increments (line 58); Chunk::~Chunk decrements only when the
counter is nonzero (line 111); BaseChunk::BaseChunk increments once per
constructed member chunk and then assigns chunkCount = 1 (line 473), so
its net effect on the counter is the assignment. -/
def chunkCountStep : Nat → ChunkEvent → Nat
  | c, ChunkEvent.mkCold => c + 1
  | _, ChunkEvent.mkBase _ => 1
  | c, ChunkEvent.dtor => if c ≠ 0 then c - 1 else c

/-- Global chunk counter after a trace of events, starting from the
initial zero. -/
def chunkCountAfter (t : List ChunkEvent) : Nat :=
  t.foldl chunkCountStep 0

/-- Number of live Chunk objects after a trace: mkBase m creates m objects
(the base and its per-depth members), each dtor destroys one. -/
def liveStep : Nat → ChunkEvent → Nat
  | c, ChunkEvent.mkCold => c + 1
  | c, ChunkEvent.mkBase m => c + m
  | c, ChunkEvent.dtor => c - 1

/-- Live chunk objects after a trace of events. -/
def liveAfter (t : List ChunkEvent) : Nat :=
  t.foldl liveStep 0

/-- Metadata as far as postfixing is concerned: the optional subset id. -/
structure Metadata where
  subsetId : Option Nat
deriving DecidableEq, Repr

/-- Modelled from the spec: Subset::postfix (subset.hpp is not under src/)
is a dash followed by the decimal subset id (spec sections 4.8 and 6). -/
def subsetPostfix (i : Nat) : String :=
  "-" ++ toString i

/-- Metadata::postfix (metadata.cpp lines 218-241): start from the empty
string and append the subset postfix only when a subset is configured and
the target is not a cold data chunk. -/
def Metadata.postfixOf (m : Metadata) (isColdChunk : Bool) : String :=
  match m.subsetId with
  | some i => if isColdChunk then "" else subsetPostfix i
  | none => ""

/-- Path written by Chunk::~Chunk for a packed cold chunk (chunk.cpp lines
96-99): the structure's maybePrefix of the chunk id (passed through here
as an opaque string) followed by postfix with isColdChunk = true. -/
def coldChunkPath (prefixPart : String) (m : Metadata) : String :=
  prefixPart ++ Metadata.postfixOf m true

/-- Path of the metadata blob (metadata.cpp line 199): "entwine" plus the
default isColdChunk = false postfix. -/
def metadataSavePath (m : Metadata) : String :=
  "entwine" ++ Metadata.postfixOf m false

/-- Path of the manifest blob (metadata.cpp line 208). -/
def manifestSavePath (m : Metadata) : String :=
  "entwine-manifest" ++ Metadata.postfixOf m false

/-- Path of the serialized base chunk (chunk.cpp line 611): the id string
with no prefixing, plus the default isColdChunk = false postfix. -/
def baseSavePath (idStr : String) (m : Metadata) : String :=
  idStr ++ Metadata.postfixOf m false

/-- Chunk::~Chunk's guarded decrement on the counter viewed over the
integers, to express that the guard prevents underflow. -/
def dtorStepZ (c : Int) : Int :=
  if c ≠ 0 then c - 1 else c

/-- Iterated destructor runs on the integer-viewed counter. -/
def iterDtorZ : Nat → Int → Int
  | 0, c => c
  | n + 1, c => iterDtorZ n (dtorStepZ c)

/-!  Theorems. -/

lemma packPayloadRaw_go (records : List (List Nat)) (acc : List Nat) :
    records.foldl (fun a r => a ++ r) acc = acc ++ records.flatten := by
  induction records generalizing acc with
  | nil => simp
  | cons r rest ih => simp [List.foldl_cons, ih, List.append_assoc]

lemma packPayloadRaw_eq_join (records : List (List Nat)) :
    packPayloadRaw records = records.flatten := by
  simpa using packPayloadRaw_go records []

lemma join_length_of_uniform (records : List (List Nat)) (p : Nat)
    (h : ∀ r ∈ records, r.length = p) :
    records.flatten.length = records.length * p := by
  induction records with
  | nil => simp
  | cons r rest ih =>
      have hr : r.length = p := h r (by simp)
      have hrest : ∀ r ∈ rest, r.length = p := by
        intro x hx; exact h x (by simp [hx])
      simp [List.flatten, hr, ih hrest, Nat.succ_mul, Nat.add_comm]

/-- Claim C1: with compression disabled, Format::pack returns a byte vector
whose payload is the concatenation of the stack's point records in stack
order, occupying exactly numPoints * pointSize bytes, followed by the tail
fields appended in the configured tailFields order. -/
theorem pack_uncompressed_layout (fmt : Format) (records : List (List Nat))
    (ct : ChunkType) (hc : fmt.compress = false)
    (hlen : ∀ r ∈ records, r.length = fmt.pointSize) :
    Format.packUncompressed fmt records ct =
      records.flatten ++ buildTail fmt.tailFields records.length ct ∧
    records.flatten.length = records.length * fmt.pointSize := by
  refine ⟨?_, join_length_of_uniform records fmt.pointSize hlen⟩
  have hcu : fmt.compress = false := hc
  clear hcu
  unfold Format.packUncompressed
  rw [packPayloadRaw_eq_join]

/-- Witness for C1 at a concrete two-record stack with pointSize 2. -/
theorem pack_uncompressed_layout_witness :
    Format.packUncompressed ⟨2, false, [TailField.numPoints, TailField.chunkType]⟩
        [[10, 20], [30, 40]] ChunkType.Contiguous =
      ([[10, 20], [30, 40]] : List (List Nat)).flatten ++
        buildTail [TailField.numPoints, TailField.chunkType] 2
          ChunkType.Contiguous ∧
    ([[10, 20], [30, 40]] : List (List Nat)).flatten.length = 2 * 2 :=
  pack_uncompressed_layout ⟨2, false, [TailField.numPoints, TailField.chunkType]⟩
    [[10, 20], [30, 40]] ChunkType.Contiguous rfl (by decide)

lemma count_le_one_of_nodup {tf : List TailField} (h : tf.Nodup)
    (f : TailField) : tf.count f ≤ 1 :=
  List.nodup_iff_count_le_one.mp h f

lemma any_count_false_of_nodup {tf : List TailField} (h : tf.Nodup) :
    tf.any (fun f => 1 < tf.count f) = false := by
  rw [List.any_eq_false]
  intro f _
  simp only [decide_eq_true_eq, not_lt]
  exact count_le_one_of_nodup h f

/-- Claim C3: Format construction throws when some tail field repeats,
throws when compression is enabled while numPoints is absent from the tail
fields, and succeeds for distinct tail fields that include numPoints
whenever compression is on. -/
theorem format_ctor_checks (pointSize : Nat) (compress : Bool)
    (tf : List TailField) :
    (¬ tf.Nodup →
      mkFormat pointSize compress tf =
        Except.error "Identical tail fields detected") ∧
    (tf.Nodup → compress = true → TailField.numPoints ∉ tf →
      mkFormat pointSize compress tf =
        Except.error "Cannot specify compression without numPoints") ∧
    (tf.Nodup → (compress = true → TailField.numPoints ∈ tf) →
      mkFormat pointSize compress tf =
        Except.ok ⟨pointSize, compress, tf⟩) := by
  refine ⟨?_, ?_, ?_⟩
  · intro hdup
    rw [List.nodup_iff_count_le_one] at hdup
    push_neg at hdup
    obtain ⟨a, ha⟩ := hdup
    have hmem : a ∈ tf := by
      have : 0 < tf.count a := by omega
      exact List.count_pos_iff.mp this
    have : tf.any (fun f => 1 < tf.count f) = true := by
      rw [List.any_eq_true]
      exact ⟨a, hmem, by simpa using ha⟩
    simp [mkFormat, this]
  · intro hnd hcmp habs
    have h1 : tf.any (fun f => 1 < tf.count f) = false :=
      any_count_false_of_nodup hnd
    have h2 : tf.count TailField.numPoints = 0 :=
      List.count_eq_zero.mpr habs
    simp [mkFormat, h1, hcmp, h2]
  · intro hnd hmem
    have h1 : tf.any (fun f => 1 < tf.count f) = false :=
      any_count_false_of_nodup hnd
    by_cases hcmp : compress = true
    · have hm : tf.count TailField.numPoints ≠ 0 := by
        rw [Ne, List.count_eq_zero]
        intro hc
        exact hc (hmem hcmp)
      simp [mkFormat, h1, hcmp, hm]
    · have hcf : compress = false := by
        cases compress
        · rfl
        · exact absurd rfl hcmp
      simp [mkFormat, h1, hcf]

/-- Witness for C3: a duplicate configuration is rejected, compression
without numPoints is rejected, and the default tail configuration with
compression on is accepted. -/
theorem format_ctor_checks_witness :
    mkFormat 16 true [TailField.numPoints, TailField.numPoints] =
      Except.error "Identical tail fields detected" ∧
    mkFormat 16 true [TailField.chunkType] =
      Except.error "Cannot specify compression without numPoints" ∧
    mkFormat 16 true [TailField.numPoints, TailField.chunkType] =
      Except.ok ⟨16, true, [TailField.numPoints, TailField.chunkType]⟩ :=
  ⟨(format_ctor_checks 16 true [TailField.numPoints, TailField.numPoints]).1
      (by decide),
   (format_ctor_checks 16 true [TailField.chunkType]).2.1
      (by decide) rfl (by decide),
   (format_ctor_checks 16 true [TailField.numPoints, TailField.chunkType]).2.2
      (by decide) (fun _ => by decide)⟩

lemma wrap32_eq_of_range (i : Int) (h1 : -(2 ^ 31) ≤ i) (h2 : i < 2 ^ 31) :
    wrap32 i = i := by
  unfold wrap32
  have hlow : (0 : Int) ≤ i + 2 ^ 31 := by omega
  have hhigh : i + 2 ^ 31 < 2 ^ 32 := by omega
  rw [Int.emod_eq_of_lt hlow hhigh]
  omega

lemma packDeltaStream_go (d : Delta) (records : List DeltaRec)
    (acc : List PushItem) :
    records.foldl (fun a r => a ++ pushRecord d r) acc =
      acc ++ (records.map (pushRecord d)).flatten := by
  induction records generalizing acc with
  | nil => simp
  | cons r rest ih => simp [List.foldl_cons, ih, List.append_assoc]

/-- Claim C2: with compression enabled and a Delta configured, pack pushes,
for each record in order, the three X/Y/Z coordinates converted to signed
32-bit integers round((native - offset) / scale), followed by the record's
remaining attribute bytes unchanged; stated under the assumption that each
rounded coordinate is representable in 32 bits, so that the int32_t
truncation is the identity. -/
theorem pack_delta_pushes (d : Delta) (records : List DeltaRec)
    (hr : ∀ r ∈ records, recInRange d r) :
    packDeltaStream d records = (records.map (specPushRecord d)).flatten := by
  unfold packDeltaStream
  rw [packDeltaStream_go]
  simp only [List.nil_append]
  congr 1
  apply List.map_congr_left
  intro r hrm
  obtain ⟨hx1, hx2, hy1, hy2, hz1, hz2⟩ := hr r hrm
  unfold pushRecord specPushRecord
  rw [wrap32_eq_of_range _ hx1 hx2, wrap32_eq_of_range _ hy1 hy2,
    wrap32_eq_of_range _ hz1 hz2]

/-- Witness for C2 at the spec's scenario E: scale 0.01, offset 0, point
(1.234, 5.678, 9.012) quantizes to (123, 568, 901). -/
theorem pack_delta_pushes_witness :
    packDeltaStream ⟨⟨1 / 100, 1 / 100, 1 / 100⟩, ⟨0, 0, 0⟩⟩
        [⟨⟨1234 / 1000, 5678 / 1000, 9012 / 1000⟩, [7]⟩] =
      ([⟨⟨1234 / 1000, 5678 / 1000, 9012 / 1000⟩, [7]⟩].map
        (specPushRecord ⟨⟨1 / 100, 1 / 100, 1 / 100⟩, ⟨0, 0, 0⟩⟩)).flatten ∧
    quantize (1 / 100) 0 (1234 / 1000) = 123 ∧
    quantize (1 / 100) 0 (5678 / 1000) = 568 ∧
    quantize (1 / 100) 0 (9012 / 1000) = 901 := by
  have hx : quantize (1 / 100) 0 (1234 / 1000) = 123 := by
    unfold quantize llround; norm_num
  have hy : quantize (1 / 100) 0 (5678 / 1000) = 568 := by
    unfold quantize llround; norm_num
  have hz : quantize (1 / 100) 0 (9012 / 1000) = 901 := by
    unfold quantize llround; norm_num
  refine ⟨?_, hx, hy, hz⟩
  apply pack_delta_pushes
  intro r hrm
  simp only [List.mem_singleton] at hrm
  subst hrm
  unfold recInRange
  simp only
  rw [hx, hy, hz]
  norm_num

lemma loadBase_ok_iff {P : Type} (climbIndex : P → Nat → Nat)
    (factor baseId : Nat) (recs : List (CelledRec P)) :
    loadBase climbIndex factor baseId recs = Except.ok recs ↔
      ∀ r ∈ recs, recValid climbIndex factor baseId r := by
  induction recs with
  | nil => simp [loadBase]
  | cons r rest ih =>
      constructor
      · intro hok
        unfold loadBase at hok
        by_cases hv :
            r.tube =
              climbIndex r.point (calcDepth factor (baseId + r.tube)) - baseId
        · rw [if_pos hv] at hok
          cases hre : loadBase climbIndex factor baseId rest with
          | ok l =>
              rw [hre] at hok
              have hl : l = rest := by
                have := hok
                simp only [Except.ok.injEq, List.cons.injEq] at this
                exact this.2
              subst hl
              intro s hs
              rcases List.mem_cons.mp hs with hs | hs
              · subst hs; exact hv
              · exact (ih.mp hre) s hs
          | error e =>
              rw [hre] at hok
              exact absurd hok (by simp)
        · rw [if_neg hv] at hok
          exact absurd hok (by simp)
      · intro hall
        have hv : recValid climbIndex factor baseId r := hall r (by simp)
        have hrest : ∀ s ∈ rest, recValid climbIndex factor baseId s := by
          intro s hs; exact hall s (by simp [hs])
        unfold recValid at hv
        unfold loadBase
        rw [if_pos hv, ih.mpr hrest]

lemma loadBase_error_of_invalid {P : Type} (climbIndex : P → Nat → Nat)
    (factor baseId : Nat) (recs : List (CelledRec P))
    (hbad : ∃ r ∈ recs, ¬ recValid climbIndex factor baseId r) :
    loadBase climbIndex factor baseId recs =
      Except.error "Bad serialized base tube" := by
  induction recs with
  | nil => simp at hbad
  | cons r rest ih =>
      by_cases hv : recValid climbIndex factor baseId r
      · have hbrest : ∃ s ∈ rest, ¬ recValid climbIndex factor baseId s := by
          obtain ⟨s, hs, hns⟩ := hbad
          rcases List.mem_cons.mp hs with hs | hs
          · subst hs; exact absurd hv hns
          · exact ⟨s, hs, hns⟩
        unfold recValid at hv
        unfold loadBase
        rw [if_pos hv, ih hbrest]
      · unfold recValid at hv
        unfold loadBase
        rw [if_neg hv]

/-- Claim C4: loading a BaseChunk from a serialized blob validates every
celled record's stored tubeId against the re-climbed state — the load
succeeds with exactly the records inserted iff every tubeId equals
climber.index() - baseId, and any disagreement makes the load raise the
fatal error. -/
theorem base_load_validates {P : Type} (climbIndex : P → Nat → Nat)
    (factor baseId : Nat) (recs : List (CelledRec P)) :
    (loadBase climbIndex factor baseId recs = Except.ok recs ↔
      ∀ r ∈ recs,
        r.tube =
          climbIndex r.point (calcDepth factor (baseId + r.tube)) - baseId) ∧
    ((∃ r ∈ recs,
        r.tube ≠
          climbIndex r.point (calcDepth factor (baseId + r.tube)) - baseId) →
      loadBase climbIndex factor baseId recs =
        Except.error "Bad serialized base tube") :=
  ⟨loadBase_ok_iff climbIndex factor baseId recs,
   fun hbad => loadBase_error_of_invalid climbIndex factor baseId recs hbad⟩

/-- Witness for C4 with a two-element chunk blob over a Nat point type: a
blob whose tubeIds re-climb correctly loads all records, and flipping one
tubeId makes the load fail. -/
theorem base_load_validates_witness :
    loadBase (fun p _ => p) 2 3
        [⟨2, 5, [1]⟩, ⟨4, 7, [2]⟩] =
      Except.ok [⟨2, 5, [1]⟩, ⟨4, 7, [2]⟩] ∧
    loadBase (fun p _ => p) 2 3 [⟨1, 5, [1]⟩] =
      Except.error "Bad serialized base tube" :=
  ⟨(base_load_validates (fun p _ => p) 2 3
      [⟨2, 5, [1]⟩, ⟨4, 7, [2]⟩]).1.mpr (by decide),
   (base_load_validates (fun p _ => p) 2 3 [⟨1, 5, [1]⟩]).2
      (by refine ⟨⟨1, 5, [1]⟩, by simp, ?_⟩; decide)⟩

lemma mergeDepthBump_ok_of_nobump {s : TreeStructure} {d : Nat}
    {w : List CChunk} {a : CChunk} (hb : s.bumpDepth = 0) :
    mergeDepthBump s d w a = Except.ok (w ++ [a]) := by
  unfold mergeDepthBump
  rw [if_neg]
  rintro ⟨h1, -, -⟩
  exact h1 hb

lemma adjViolated_eq_not_rowAdj (w : List CChunk) (a : CChunk) :
    adjViolated w a = !rowAdj (lastEnd w) a := by
  cases hl : w.getLast? with
  | none => simp [adjViolated, rowAdj, lastEnd, hl]
  | some last =>
      simp only [adjViolated, rowAdj, lastEnd, hl, Option.map_some,
        Option.getD_some]
      rfl

lemma mergeDepth_ok {s : TreeStructure} {d : Nat} {w : List CChunk}
    {a : CChunk} {w' : List CChunk}
    (h : mergeDepth s d w a = Except.ok w') :
    rowAdj (lastEnd w) a = true ∧ w' = w ++ [a] := by
  unfold mergeDepth at h
  by_cases hv : adjViolated w a = true
  · rw [if_pos hv] at h
    exact absurd h (by simp)
  · have hadj : rowAdj (lastEnd w) a = true := by
      have hveq := adjViolated_eq_not_rowAdj w a
      rw [Bool.not_eq_true] at hv
      rw [hv] at hveq
      simpa using hveq.symm
    rw [if_neg hv] at h
    unfold mergeDepthBump at h
    split at h
    · exact absurd h (by simp)
    · exact ⟨hadj, by simpa using h.symm⟩

lemma mergeDepth_ok_of_adj {s : TreeStructure} {d : Nat} {w : List CChunk}
    {a : CChunk} (hb : s.bumpDepth = 0)
    (hadj : rowAdj (lastEnd w) a = true) :
    mergeDepth s d w a = Except.ok (w ++ [a]) := by
  unfold mergeDepth
  have hv : adjViolated w a = false := by
    rw [adjViolated_eq_not_rowAdj, hadj]
    rfl
  rw [if_neg (by simp [hv])]
  exact mergeDepthBump_ok_of_nobump hb

lemma mergeOneGo_ok {s : TreeStructure} :
    ∀ {d : Nat} {ws : List (List CChunk)} {os : List CChunk}
      {ws' : List (List CChunk)},
    ws.length = os.length →
    mergeOneGo s d ws os = Except.ok ws' →
    rowsAdj (ws.map lastEnd) os = true ∧
      ws' = List.zipWith (fun w a => w ++ [a]) ws os := by
  intro d ws
  induction ws generalizing d with
  | nil =>
      intro os ws' hlen h
      cases os with
      | nil =>
          refine ⟨by simp [rowsAdj], ?_⟩
          simpa [mergeOneGo] using h.symm
      | cons a as => simp at hlen
  | cons w ws ih =>
      intro os ws' hlen h
      cases os with
      | nil => simp at hlen
      | cons a as =>
          unfold mergeOneGo at h
          cases hm : mergeDepth s d w a with
          | error e => rw [hm] at h; exact absurd h (by simp)
          | ok w1 =>
              rw [hm] at h
              cases hr : mergeOneGo s (d + 1) ws as with
              | error e => rw [hr] at h; exact absurd h (by simp)
              | ok rest =>
                  rw [hr] at h
                  have hws' : ws' = w1 :: rest := by simpa using h.symm
                  obtain ⟨hadj, hw1⟩ := mergeDepth_ok hm
                  obtain ⟨hrows, hrest⟩ :=
                    ih (by simpa using hlen) hr
                  subst hws' hw1 hrest
                  refine ⟨?_, by simp⟩
                  simp [rowsAdj] at hrows ⊢
                  exact ⟨by simpa [rowAdj] using hadj, hrows⟩

lemma mergeOneGo_ok_of_adj {s : TreeStructure} (hb : s.bumpDepth = 0) :
    ∀ {d : Nat} {ws : List (List CChunk)} {os : List CChunk},
    ws.length = os.length →
    rowsAdj (ws.map lastEnd) os = true →
    mergeOneGo s d ws os =
      Except.ok (List.zipWith (fun w a => w ++ [a]) ws os) := by
  intro d ws
  induction ws generalizing d with
  | nil =>
      intro os hlen hadj
      cases os with
      | nil => simp [mergeOneGo]
      | cons a as => simp at hlen
  | cons w ws ih =>
      intro os hlen hadj
      cases os with
      | nil => simp at hlen
      | cons a as =>
          simp [rowsAdj] at hadj
          obtain ⟨hrow, hrows⟩ := hadj
          unfold mergeOneGo
          rw [mergeDepth_ok_of_adj hb (by simpa [rowAdj] using hrow)]
          rw [ih (by simpa using hlen) (by simpa [rowsAdj] using hrows)]
          simp

lemma lastEnd_concat (w : List CChunk) (a : CChunk) :
    lastEnd (w ++ [a]) = some (CChunk.endId a) := by
  simp [lastEnd]

lemma zipWith_map_lastEnd :
    ∀ (ws : List (List CChunk)) (os : List CChunk),
    ws.length = os.length →
    (List.zipWith (fun w a => w ++ [a]) ws os).map lastEnd =
      os.map (fun a => some (CChunk.endId a)) := by
  intro ws
  induction ws with
  | nil =>
      intro os hlen
      cases os with
      | nil => simp
      | cons a as => simp at hlen
  | cons w ws ih =>
      intro os hlen
      cases os with
      | nil => simp at hlen
      | cons a as =>
          simp [lastEnd_concat, ih as (by simpa using hlen)]

/-- Claim C5, amended: merging a sequence of subset bases succeeds only if
at every depth each incoming subset's base chunk id equals the current
write buffer's end id (so any adjacency violation is a fatal error), and
conversely, when adjacency holds at every depth and the structure has no
bump depth, the merge succeeds.  (With a bump depth configured the merge
can fail even under full adjacency; see the counterexample.) -/
theorem base_merge_adjacency (s : TreeStructure)
    (writes : List (List CChunk)) (others : List (List CChunk))
    (hlen : ∀ o ∈ others, o.length = writes.length) :
    (∀ res, mergeAll s writes others = Except.ok res →
      chainAdj (writes.map lastEnd) others = true) ∧
    (s.bumpDepth = 0 → chainAdj (writes.map lastEnd) others = true →
      ∃ res, mergeAll s writes others = Except.ok res) := by
  induction others generalizing writes with
  | nil =>
      exact ⟨fun res _ => by simp [chainAdj], fun _ _ => ⟨writes, rfl⟩⟩
  | cons o os ih =>
      have hwl : writes.length = o.length := (hlen o (by simp)).symm
      constructor
      · intro res h
        unfold mergeAll at h
        cases hm : mergeOne s writes o with
        | error e => rw [hm] at h; exact absurd h (by simp)
        | ok w' =>
            rw [hm] at h
            obtain ⟨hrows, hw'⟩ := mergeOneGo_ok hwl hm
            have hw'len : w'.length = writes.length := by
              subst hw'; simp [hwl]
            have hmap : w'.map lastEnd =
                o.map (fun a => some (CChunk.endId a)) := by
              subst hw'; exact zipWith_map_lastEnd writes o hwl
            have hlos : ∀ o' ∈ os, o'.length = w'.length := by
              intro o' ho'
              rw [hw'len]
              exact hlen o' (by simp [ho'])
            have hchain := (ih w' hlos).1 res h
            rw [hmap] at hchain
            simp [chainAdj, hrows, hchain]
      · intro hb hchain
        simp only [chainAdj, Bool.and_eq_true] at hchain
        obtain ⟨hrows, hrest⟩ := hchain
        have hm : mergeOne s writes o =
            Except.ok (List.zipWith (fun w a => w ++ [a]) writes o) :=
          mergeOneGo_ok_of_adj hb hwl hrows
        set w' := List.zipWith (fun w a => w ++ [a]) writes o with hw'
        have hw'len : w'.length = writes.length := by
          rw [hw']; simp [hwl]
        have hmap : w'.map lastEnd =
            o.map (fun a => some (CChunk.endId a)) := by
          rw [hw']; exact zipWith_map_lastEnd writes o hwl
        have hlos : ∀ o' ∈ os, o'.length = w'.length := by
          intro o' ho'
          rw [hw'len]
          exact hlen o' (by simp [ho'])
        obtain ⟨res, hres⟩ := (ih w' hlos).2 hb (by rw [hmap]; exact hrest)
        refine ⟨res, ?_⟩
        unfold mergeAll
        rw [hm]
        exact hres

/-- Witness for the amended C5 on a concrete two-depth, one-subset merge
with no bump depth: adjacency holds at both depths and the merge
succeeds, and success indeed certifies the adjacency chain. -/
theorem base_merge_adjacency_witness :
    (∀ res,
      mergeAll ⟨1, 3, 0, 100⟩ [[⟨1, 2⟩], [⟨3, 4⟩]] [[⟨3, 2⟩, ⟨7, 4⟩]] =
        Except.ok res →
      chainAdj ([[⟨1, 2⟩], [⟨3, 4⟩]].map lastEnd) [[⟨3, 2⟩, ⟨7, 4⟩]] =
        true) ∧
    ((⟨1, 3, 0, 100⟩ : TreeStructure).bumpDepth = 0 →
      chainAdj ([[⟨1, 2⟩], [⟨3, 4⟩]].map lastEnd) [[⟨3, 2⟩, ⟨7, 4⟩]] =
        true →
      ∃ res,
        mergeAll ⟨1, 3, 0, 100⟩ [[⟨1, 2⟩], [⟨3, 4⟩]] [[⟨3, 2⟩, ⟨7, 4⟩]] =
          Except.ok res) :=
  base_merge_adjacency ⟨1, 3, 0, 100⟩ [[⟨1, 2⟩], [⟨3, 4⟩]]
    [[⟨3, 2⟩, ⟨7, 4⟩]] (by decide)

/-- Counterexample to C5 as stated: with a bump depth configured, a merge
whose adjacency chain holds at every depth still fails, because reaching
basePointsPerChunk of accumulated span hits the not-implemented throw. -/
theorem base_merge_not_unconditional :
    chainAdj ([[(⟨1, 2⟩ : CChunk)]].map lastEnd) [[⟨3, 2⟩]] = true ∧
    mergeAll ⟨1, 2, 1, 4⟩ [[(⟨1, 2⟩ : CChunk)]] [[⟨3, 2⟩]] =
      Except.error "Chunk bounds required - not implemented here" :=
  ⟨by decide, by rfl⟩

/-- Claim C6: when the structure has a bump depth, the depth is at or past
it, adjacency holds, and the accumulated span reaches basePointsPerChunk,
BaseChunk::merge raises the not-implemented error instead of promoting
the accumulated tubes into a standalone cold chunk — the promotion and
collect code sits after an unconditional throw. -/
theorem merge_bump_throws (s : TreeStructure) (d : Nat)
    (write : List CChunk) (adding : CChunk)
    (hb : s.bumpDepth ≠ 0) (hd : s.bumpDepth ≤ d)
    (hadj : rowAdj (lastEnd write) adding = true)
    (hspan : CChunk.endId adding - (write.headD adding).id =
      s.basePointsPerChunk) :
    mergeDepth s d write adding =
      Except.error "Chunk bounds required - not implemented here" := by
  have hbump : mergeDepthBump s d write adding =
      Except.error "Chunk bounds required - not implemented here" := by
    unfold mergeDepthBump
    rw [if_pos ⟨hb, hd, hspan⟩]
  unfold mergeDepth
  have hv : adjViolated write adding = false := by
    rw [adjViolated_eq_not_rowAdj, hadj]
    rfl
  rw [if_neg (by simp [hv])]
  exact hbump

/-- Witness for C6 at the concrete failing input: bumpDepth 1, depth 1,
a write buffer ending at id 3, an adjacent incoming chunk [3, 5) and
basePointsPerChunk 4 — the accumulated span 5 - 1 reaches 4 and the merge
errors out. -/
theorem merge_bump_throws_witness :
    mergeDepth ⟨1, 2, 1, 4⟩ 1 [(⟨1, 2⟩ : CChunk)] ⟨3, 2⟩ =
      Except.error "Chunk bounds required - not implemented here" :=
  merge_bump_throws ⟨1, 2, 1, 4⟩ 1 [⟨1, 2⟩] ⟨3, 2⟩
    (by decide) (by decide) (by decide) (by decide)

/-- Counterexample to C7 as stated: a second collect on an already packed
chunk is not a successful no-op — the assertion that m_data is empty
(chunk.cpp line 78, modelled as a fatal error) rejects it. -/
theorem collect_second_call_rejected :
    chunkCollect
        (Format.packUncompressed
          ⟨1, false, [TailField.numPoints, TailField.chunkType]⟩)
        ChunkType.Sparse ⟨[[5]], none⟩ =
      Except.ok ⟨[], some (Format.packUncompressed
        ⟨1, false, [TailField.numPoints, TailField.chunkType]⟩
        [[5]] ChunkType.Sparse)⟩ ∧
    chunkCollect
        (Format.packUncompressed
          ⟨1, false, [TailField.numPoints, TailField.chunkType]⟩)
        ChunkType.Sparse
        ⟨[], some (Format.packUncompressed
          ⟨1, false, [TailField.numPoints, TailField.chunkType]⟩
          [[5]] ChunkType.Sparse)⟩ ≠
      Except.ok ⟨[], some (Format.packUncompressed
        ⟨1, false, [TailField.numPoints, TailField.chunkType]⟩
        [[5]] ChunkType.Sparse)⟩ := by
  refine ⟨rfl, ?_⟩
  simp [chunkCollect]

/-- Claim C7, amended: collect requires m_data to be empty — after a
successful collect, m_data is populated and a second collect violates the
assertion and is rejected (modelled as a fatal error) rather than
silently no-oping; in particular no successful second call ever
overwrites m_data. -/
theorem collect_requires_empty_data
    (pack : List (List Nat) → ChunkType → List Nat) (ty : ChunkType)
    (c c' : ChunkState)
    (h : chunkCollect pack ty c = Except.ok c') :
    c'.mdata.isSome = true ∧
    chunkCollect pack ty c' = Except.error "assertion failed: !m_data" := by
  unfold chunkCollect at h
  by_cases hc : c.mdata.isSome = true
  · rw [if_pos hc] at h
    exact absurd h (by simp)
  · rw [if_neg hc] at h
    have hc' : c' = ⟨[], some (pack c.tubes ty)⟩ := by
      simpa using h.symm
    subst hc'
    exact ⟨rfl, by simp [chunkCollect]⟩

/-- Witness for the amended C7: collecting a one-cell chunk succeeds, and
the collected state is rejected by a second collect. -/
theorem collect_requires_empty_data_witness :
    (⟨[], some [9]⟩ : ChunkState).mdata.isSome = true ∧
    chunkCollect (fun _ _ => [9]) ChunkType.Contiguous ⟨[], some [9]⟩ =
      Except.error "assertion failed: !m_data" :=
  collect_requires_empty_data (fun _ _ => [9]) ChunkType.Contiguous
    ⟨[[5]], none⟩ ⟨[], some [9]⟩ rfl

/-- Counterexample to C8 as stated: after constructing one cold chunk and
then the BaseChunk (which creates the base plus two member chunks and then
assigns the counter to 1, chunk.cpp line 473), the counter reads 1 while
4 chunk objects are live; even counting the base composite as the single
separately-counted object, 2 objects are live, so the counter matches
neither reading. -/
theorem chunk_counter_reset_counterexample :
    chunkCountAfter [ChunkEvent.mkCold, ChunkEvent.mkBase 3] = 1 ∧
    liveAfter [ChunkEvent.mkCold, ChunkEvent.mkBase 3] = 4 ∧
    (1 : Nat) ≠ 4 ∧ (1 : Nat) ≠ 2 := by
  refine ⟨rfl, rfl, by decide, by decide⟩

lemma foldl_mkCold (a k : Nat) :
    (List.replicate k ChunkEvent.mkCold).foldl chunkCountStep a = a + k := by
  induction k generalizing a with
  | zero => simp
  | succ k ih =>
      rw [List.replicate_succ, List.foldl_cons]
      have : chunkCountStep a ChunkEvent.mkCold = a + 1 := rfl
      rw [this, ih]
      omega

lemma chunkCountStep_dtor (a : Nat) :
    chunkCountStep a ChunkEvent.dtor = a - 1 := by
  cases a with
  | zero => rfl
  | succ n => simp [chunkCountStep]

lemma foldl_dtor (a n : Nat) :
    (List.replicate n ChunkEvent.dtor).foldl chunkCountStep a = a - n := by
  induction n generalizing a with
  | zero => simp
  | succ n ih =>
      rw [List.replicate_succ, List.foldl_cons, chunkCountStep_dtor, ih]
      omega

/-- Claim C8, amended: constructing the BaseChunk resets the counter to 1
regardless of chunks already alive, so the counter equals the live object
count only when the base is constructed first; in a build whose trace
starts with the base construction (the base and its members being the 1
the constructor assigns), the counter afterwards reads 1 plus the number
of cold chunks constructed so far, and once every chunk — the cold
chunks, the base, and the base's members — has been destroyed, the
guarded decrements return the counter to exactly zero. -/
theorem chunk_counter_amended (m c : Nat) (hm : 1 ≤ m) :
    (∀ k, chunkCountAfter
        (ChunkEvent.mkBase m :: List.replicate k ChunkEvent.mkCold) =
      1 + k) ∧
    chunkCountAfter
        (ChunkEvent.mkBase m ::
          (List.replicate c ChunkEvent.mkCold ++
            List.replicate (c + m) ChunkEvent.dtor)) = 0 := by
  constructor
  · intro k
    unfold chunkCountAfter
    rw [List.foldl_cons]
    have h0 : chunkCountStep 0 (ChunkEvent.mkBase m) = 1 := rfl
    rw [h0, foldl_mkCold]
  · unfold chunkCountAfter
    rw [List.foldl_cons]
    have h0 : chunkCountStep 0 (ChunkEvent.mkBase m) = 1 := rfl
    rw [h0, List.foldl_append, foldl_mkCold, foldl_dtor]
    omega

/-- Witness for the amended C8 with a base of 3 objects and 2 cold
chunks. -/
theorem chunk_counter_amended_witness :
    (∀ k, chunkCountAfter
        (ChunkEvent.mkBase 3 :: List.replicate k ChunkEvent.mkCold) =
      1 + k) ∧
    chunkCountAfter
        (ChunkEvent.mkBase 3 ::
          (List.replicate 2 ChunkEvent.mkCold ++
            List.replicate (2 + 3) ChunkEvent.dtor)) = 0 :=
  chunk_counter_amended 3 2 (by decide)

/-- Claim C9: postfix(isColdChunk = true) is empty even with a subset
configured, so the cold chunk blob written from Chunk's destructor carries
no subset suffix, while postfix(false) is the subset postfix, so the
metadata, manifest and base-chunk files are suffixed with the subset
id. -/
theorem postfix_cold_vs_base (m : Metadata) (i : Nat)
    (hs : m.subsetId = some i) :
    Metadata.postfixOf m true = "" ∧
    (∀ p, coldChunkPath p m = p) ∧
    Metadata.postfixOf m false = "-" ++ toString i ∧
    metadataSavePath m = "entwine" ++ ("-" ++ toString i) ∧
    manifestSavePath m = "entwine-manifest" ++ ("-" ++ toString i) ∧
    (∀ idStr, baseSavePath idStr m = idStr ++ ("-" ++ toString i)) := by
  unfold metadataSavePath manifestSavePath baseSavePath coldChunkPath
    Metadata.postfixOf subsetPostfix
  rw [hs]
  simp

/-- Witness for C9 with subset id 4. -/
theorem postfix_cold_vs_base_witness :
    Metadata.postfixOf ⟨some 4⟩ true = "" ∧
    (∀ p, coldChunkPath p ⟨some 4⟩ = p) ∧
    Metadata.postfixOf ⟨some 4⟩ false = "-" ++ toString 4 ∧
    metadataSavePath ⟨some 4⟩ = "entwine" ++ ("-" ++ toString 4) ∧
    manifestSavePath ⟨some 4⟩ = "entwine-manifest" ++ ("-" ++ toString 4) ∧
    (∀ idStr, baseSavePath idStr ⟨some 4⟩ = idStr ++ ("-" ++ toString 4)) :=
  postfix_cold_vs_base ⟨some 4⟩ 4 rfl

/-- Claim C10: the decrement in Chunk's destructor is guarded by the
counter being nonzero, so iterated destructor runs from any non-negative
counter value never drive it below zero — the result is exactly
max(counter - runs, 0). -/
theorem dtor_guard_no_underflow (n : Nat) (c : Int) (hc : 0 ≤ c) :
    0 ≤ iterDtorZ n c ∧ iterDtorZ n c = max (c - n) 0 := by
  induction n generalizing c with
  | zero =>
      refine ⟨hc, ?_⟩
      simp [iterDtorZ]
      exact hc
  | succ n ih =>
      unfold iterDtorZ dtorStepZ
      by_cases h0 : c = 0
      · subst h0
        rw [if_neg (by simp)]
        obtain ⟨ih1, ih2⟩ := ih 0 le_rfl
        refine ⟨ih1, ?_⟩
        rw [ih2, max_eq_right (by omega), max_eq_right (by omega)]
      · rw [if_pos h0]
        obtain ⟨ih1, ih2⟩ := ih (c - 1) (by omega)
        refine ⟨ih1, ?_⟩
        rw [ih2]
        congr 1
        push_cast
        ring

/-- Witness for C10: five destructor runs starting from a counter of 2
stop at zero instead of underflowing. -/
theorem dtor_guard_no_underflow_witness :
    0 ≤ iterDtorZ 5 2 ∧ iterDtorZ 5 2 = max ((2 : Int) - (5 : Nat)) 0 :=
  dtor_guard_no_underflow 5 2 (by norm_num)

end Entwine
